import Mathlib

/-!
Verification development for the ERCOT LMP viewer's data pipeline
(`src/app/ercot_lmp_app.py`).

The pipeline is embedded shallowly:

* a pandas cell value is a `Value`: a raw string, a finite number (modelled
  as a rational), a well-formed timestamp (modelled as integer minutes on a
  linear time axis, so that `pd.to_datetime` of a well-formed date or
  timestamp string is the `time` constructor and an unparseable value
  coerces to `nan`, standing for NaN/NaT), or `nan`;
* a DataFrame is a `Frame`: a list of column names plus a list of rows,
  each row an association list from column name to `Value`;
* `pd.to_numeric(..., errors=coerce)`, `pd.to_datetime(..., errors=coerce)`,
  `.astype(int)` and the hour-ending split are modelled by explicit parsers
  over the character list of the string (Python `int(...)`: optional sign
  then decimal digits; Python float syntax: optionally a fractional part);
  `.astype(int)` returning `none` models the `ValueError` the Python code
  catches;
* `sort_values` is modelled by a stable insertion sort on the datetime key
  (pandas leaves the relative order of equal keys unspecified; the stable
  order is the refinement chosen here);
* `resample(H).mean()` is modelled by the hour-aligned closed bucket range
  from the floor of the earliest to the floor of the latest timestamp, with
  the NaN-skipping mean in each bucket and `nan` for an empty bucket,
  exactly as pandas emits it.
-/

/-- A pandas cell value: raw string, finite number, well-formed timestamp
(integer minutes on the time axis), or missing (NaN/NaT). -/
inductive Value where
  | str (s : String)
  | num (q : ℚ)
  | time (t : ℤ)
  | nan
deriving DecidableEq, Repr

/-- A DataFrame row: an association list from column name to cell value. -/
abbrev Row := List (String × Value)

/-- Cell access in a row; a column absent from the row behaves as missing. -/
def rowGet : Row → String → Value
  | [], _ => .nan
  | (k, v) :: r, c => if k = c then v else rowGet r c

/-- Whether a row carries a binding for a column. -/
def rowHas : Row → String → Bool
  | [], _ => false
  | (k, _) :: r, c => k = c || rowHas r c

/-- Column assignment in a row: replace the binding if the column exists,
otherwise append it at the end (as pandas appends a new column). -/
def rowSet : Row → String → Value → Row
  | [], c, v => [(c, v)]
  | (k, w) :: r, c, v => if k = c then (c, v) :: r else (k, w) :: rowSet r c v

/-- A DataFrame: column names plus rows. -/
structure Frame where
  cols : List String
  rows : List Row
deriving DecidableEq, Repr

/-- The empty DataFrame `pd.DataFrame()`. -/
def Frame.empty : Frame := ⟨[], []⟩

/-- Column assignment on a whole frame, `df[c] = f(row)`. -/
def setCol (df : Frame) (c : String) (f : Row → Value) : Frame :=
  ⟨if c ∈ df.cols then df.cols else df.cols ++ [c],
   df.rows.map (fun r => rowSet r c (f r))⟩

/-- One character is an ASCII decimal digit. -/
def isDigit (c : Char) : Bool := decide ('0' ≤ c) && decide (c ≤ '9')

/-- Accumulating decimal-digit parser: `none` until at least one digit has
been read, `none` again on the first non-digit character. -/
def digitsToNat : List Char → Option ℕ → Option ℕ
  | [], acc => acc
  | c :: cs, acc =>
      if isDigit c then
        digitsToNat cs (some ((acc.getD 0) * 10 + (c.toNat - ('0').toNat)))
      else none

/-- Parse a non-empty all-digit character list. -/
def parseNatChars (cs : List Char) : Option ℕ := digitsToNat cs none

/-- Python `int(s)`: optional sign followed by decimal digits. -/
def parseIntChars : List Char → Option ℤ
  | '-' :: rest => (parseNatChars rest).map (fun n => -(n : ℤ))
  | '+' :: rest => (parseNatChars rest).map (fun n => (n : ℤ))
  | cs => (parseNatChars cs).map (fun n => (n : ℤ))

/-- The characters before the first colon, `s.split(':')[0]`. -/
def takeUntilColon : List Char → List Char
  | [] => []
  | c :: cs => if c = ':' then [] else c :: takeUntilColon cs

/-- Split at the first decimal point: the characters before it, and the
characters after it when one is present. -/
def breakAtDot : List Char → List Char × Option (List Char)
  | [] => ([], none)
  | c :: cs =>
      if c = '.' then ([], some cs)
      else
        let p := breakAtDot cs
        (c :: p.1, p.2)

/-- Unsigned decimal literal as Python float syntax accepts it:
`digits`, `digits.digits`, `digits.` or `.digits` (exponents are outside
the model's scope). -/
def parseUnsignedDecimal (cs : List Char) : Option ℚ :=
  match breakAtDot cs with
  | (w, none) => (parseNatChars w).map (fun n => (n : ℚ))
  | (w, some f) =>
      if f.any (fun c => c = '.') then none
      else
        match w, f with
        | [], [] => none
        | [], f =>
            (parseNatChars f).map (fun fn => (fn : ℚ) / ((10 : ℚ) ^ f.length))
        | w, [] => (parseNatChars w).map (fun n => (n : ℚ))
        | w, f =>
            match parseNatChars w, parseNatChars f with
            | some n, some fn =>
                some ((n : ℚ) + (fn : ℚ) / ((10 : ℚ) ^ f.length))
            | _, _ => none

/-- Python numeric-literal parsing as used by `pd.to_numeric`: optional sign
followed by a decimal literal. -/
def parseDecimalChars : List Char → Option ℚ
  | '-' :: rest => (parseUnsignedDecimal rest).map (fun q => -q)
  | '+' :: rest => parseUnsignedDecimal rest
  | cs => parseUnsignedDecimal cs

/-- Model of `pd.to_numeric(v, errors=coerce)`: numbers pass through,
numeric strings parse, everything else coerces to NaN (`none`). -/
def toNumericCoerce : Value → Option ℚ
  | .num q => some q
  | .str s => parseDecimalChars s.data
  | _ => none

/-- Model of `pd.to_datetime(v, errors=coerce)`: a well-formed date or
timestamp value is already a point on the time axis; everything else
coerces to NaT (`none`). -/
def toDatetimeCoerce : Value → Option ℤ
  | .time t => some t
  | _ => none

/-- Model of the hour-ending extraction
`hourEnding.astype(str).str.split(...).str[0].astype(int)` on one cell:
the characters before the first colon parsed as an integer. A numeric cell
(an integer hour ending, as the JSON rows would carry it) prints without a
colon and parses back to itself; `none` models the `ValueError` raised by
`astype(int)`. -/
def parseHourEnding : Value → Option ℤ
  | .str s => parseIntChars (takeUntilColon s.data)
  | .num q => if q.den = 1 then some q.num else none
  | _ => none

/-- Model of `.astype(int)` on one cell of the `deliveryHour` column:
integer strings parse, numbers are truncated toward zero (the C cast), and
anything else raises (`none`). -/
def astypeIntCell : Value → Option ℤ
  | .str s => parseIntChars s.data
  | .num q => some (Int.tdiv q.num (q.den : ℤ))
  | _ => none

/-- Lift a per-element fallible computation to a whole list; `none` as soon
as one element fails, modelling a raised exception in a column operation. -/
def optList {α β : Type} (f : α → Option β) : List α → Option (List β)
  | [] => some []
  | a :: as_ =>
      match f a, optList f as_ with
      | some b, some bs => some (b :: bs)
      | _, _ => none

/-- Case 1 of `process_and_normalize_data`: a full `SCEDTimestamp` column is
parsed directly into the `datetime` column. -/
def deriveCase1 (df : Frame) : Frame :=
  setCol df "datetime" (fun r =>
    match toDatetimeCoerce (rowGet r "SCEDTimestamp") with
    | some t => .time t
    | none => .nan)

/-- The `datetime` cell built from a delivery date and an hour number `h`
already stored in the `hour` column:
`to_datetime(deliveryDate) + to_timedelta(hour - 1, unit=h)`. The `hour`
column always holds integers (it is produced by `astype(int)`), so the
integral branch is the live one. -/
def hourOffsetDatetime (r : Row) : Value :=
  match toDatetimeCoerce (rowGet r "deliveryDate"), rowGet r "hour" with
  | some d, .num h => if h.den = 1 then .time (d + 60 * (h.num - 1)) else .nan
  | _, _ => .nan

/-- Case 2 of `process_and_normalize_data`: delivery date plus hour-ending
string. The whole-column `astype(int)` raises (`none`) as soon as a single
cell fails to parse. -/
def deriveCase2 (df : Frame) : Option Frame :=
  match optList (fun r => parseHourEnding (rowGet r "hourEnding")) df.rows with
  | none => none
  | some _ =>
      some (setCol
        (setCol df "hour" (fun r =>
          .num (((parseHourEnding (rowGet r "hourEnding")).getD 0 : ℤ) : ℚ)))
        "datetime" hourOffsetDatetime)

/-- Case 3 of `process_and_normalize_data`: delivery date plus integer
delivery hour, same minus-one-hour offset rule. -/
def deriveCase3 (df : Frame) : Option Frame :=
  match optList (fun r => astypeIntCell (rowGet r "deliveryHour")) df.rows with
  | none => none
  | some _ =>
      some (setCol
        (setCol df "hour" (fun r =>
          .num (((astypeIntCell (rowGet r "deliveryHour")).getD 0 : ℤ) : ℚ)))
        "datetime" hourOffsetDatetime)

/-- The three location-identifying column names the pipeline preserves. -/
def locNames : List String := ["settlementPoint", "busName", "electricalBus"]

/-- The columns kept by the final projection: the datetime, the price, and
whichever location columns are present. -/
def essentialCols (cols : List String) (pc : String) : List String :=
  ["datetime", pc] ++ locNames.filter (fun c => c ∈ cols)

/-- Projection of one row onto a column list, `df[cols]` rowwise. -/
def selectRow (cs : List String) (r : Row) : Row := cs.map (fun c => (c, rowGet r c))

/-- The sort key used by `sort_values(by=datetime)`; after the NaN drop
every row holds a `time` value, so the default branch is dead there. -/
def dtKey (r : Row) : ℤ :=
  match rowGet r "datetime" with
  | .time t => t
  | _ => 0

/-- Insert into a list sorted by a key, keeping earlier-inserted elements
first among equal keys (stable). -/
def insertK {α κ : Type} [LinearOrder κ] (key : α → κ) (a : α) : List α → List α
  | [] => [a]
  | b :: l => if key a ≤ key b then a :: b :: l else b :: insertK key a l

/-- Stable insertion sort by a key: the model of `sort_values`. -/
def sortK {α κ : Type} [LinearOrder κ] (key : α → κ) : List α → List α
  | [] => []
  | a :: l => insertK key a (sortK key l)

/-- A row survives `dropna(subset=[datetime, price])`: its datetime parsed
and its price coerced to a number. -/
def keepRow (pc : String) (r : Row) : Bool :=
  (match rowGet r "datetime" with | .time _ => true | _ => false) &&
  (match rowGet r pc with | .num _ => true | _ => false)

/-- The price-coercion step `df[pc] = pd.to_numeric(df[pc], errors=coerce)`. -/
def coercePrices (df : Frame) (pc : String) : Frame :=
  setCol df pc (fun r =>
    match toNumericCoerce (rowGet r pc) with
    | some q => .num q
    | none => .nan)

/-- The tail of `process_and_normalize_data` shared by all three cases:
coerce the price column to numbers, drop rows whose datetime or price is
missing, sort ascending by datetime, and project onto the essential
columns. Reading a missing price column raises a `KeyError` (`none`). -/
def finishNormalize (df : Frame) (pc : String) : Option Frame :=
  if pc ∈ df.cols then
    some ⟨essentialCols (coercePrices df pc).cols pc,
          (sortK dtKey ((coercePrices df pc).rows.filter (keepRow pc))).map
            (selectRow (essentialCols (coercePrices df pc).cols pc))⟩
  else none

/-- Outcome of `process_and_normalize_data`, keeping the diagnostics the
Python function reports through the UI: a normalized frame, the
unrecognized-schema error carrying the actually available column names, or
a caught exception. -/
inductive NormResult where
  | ok (f : Frame)
  | unrecognized (available : List String)
  | failed
deriving DecidableEq, Repr

/-- The full schema-detection and normalization logic of
`process_and_normalize_data`, with its error reporting made explicit. The
branch order mirrors the source: empty guard, then `SCEDTimestamp`, then
`deliveryDate` + `hourEnding`, then `deliveryDate` + `deliveryHour`, else
the unrecognized-schema report. -/
def process_and_normalize_result (df : Frame) (pc : String) : NormResult :=
  if df.rows = [] ∨ df.cols = [] then .ok Frame.empty
  else if "SCEDTimestamp" ∈ df.cols then
    match finishNormalize (deriveCase1 df) pc with
    | some f => .ok f
    | none => .failed
  else if "deliveryDate" ∈ df.cols ∧ "hourEnding" ∈ df.cols then
    match deriveCase2 df with
    | none => .failed
    | some d =>
        match finishNormalize d pc with
        | some f => .ok f
        | none => .failed
  else if "deliveryDate" ∈ df.cols ∧ "deliveryHour" ∈ df.cols then
    match deriveCase3 df with
    | none => .failed
    | some d =>
        match finishNormalize d pc with
        | some f => .ok f
        | none => .failed
  else .unrecognized df.cols

/-- The frame actually returned by `process_and_normalize_data`: the
normalized frame on success, the empty frame on an unrecognized schema or
a caught exception. -/
def process_and_normalize_data (df : Frame) (pc : String) : Frame :=
  match process_and_normalize_result df pc with
  | .ok f => f
  | _ => Frame.empty

/-- Floor of a time to its hour boundary (resample bins are hour-aligned). -/
def hfloor (t : ℤ) : ℤ := t - t % 60

/-- The timestamps of the rows whose datetime cell is valid. -/
def validTimes (rows : List Row) : List ℤ :=
  rows.filterMap (fun r =>
    match rowGet r "datetime" with
    | .time t => some t
    | _ => none)

/-- The numeric prices of the rows falling in the hour bucket starting at
`b` (non-numeric prices are skipped, as the pandas NaN-skipping mean does). -/
def bucketNums (rows : List Row) (pc : String) (b : ℤ) : List ℚ :=
  rows.filterMap (fun r =>
    match rowGet r "datetime", rowGet r pc with
    | .time t, .num q => if hfloor t = b then some q else none
    | _, _ => none)

/-- The NaN-skipping mean of a price list as a cell value: NaN when no
numeric price is present, the arithmetic mean otherwise. -/
def meanValue : List ℚ → Value
  | [] => .nan
  | q :: qs => .num (((q :: qs).sum) / ((q :: qs).length : ℚ))

/-- The rows emitted by `resample(H).mean().reset_index()` over rows whose
valid timestamps are `t :: ts`: one bucket for every hour from the floor of
the earliest valid timestamp to the floor of the latest, empty buckets
included (their mean is NaN). -/
def resampleRows (rows : List Row) (pc : String) (t : ℤ) (ts : List ℤ) :
    List Row :=
  (List.range (((hfloor (ts.foldl max t) - hfloor (ts.foldl min t)) / 60).toNat
      + 1)).map
    (fun (i : ℕ) =>
      [("datetime", Value.time (hfloor (ts.foldl min t) + 60 * (i : ℤ))),
       (pc, meanValue (bucketNums rows pc
          (hfloor (ts.foldl min t) + 60 * (i : ℤ))))])

/-- Model of `resample_to_hourly_average`: guard the empty frame, then set
the datetime index, select the price column and take the hourly resampled
mean; `reset_index` leaves exactly the datetime and price columns. -/
def resample_to_hourly_average (df : Frame) (pc : String) : Frame :=
  if df.rows = [] ∨ df.cols = [] ∨ "datetime" ∉ df.cols then Frame.empty
  else
    match validTimes df.rows with
    | [] => Frame.empty
    | t :: ts => ⟨["datetime", pc], resampleRows df.rows pc t ts⟩

/-- The two analysis periods offered by the statistics view. -/
inductive Period where
  | fullDay
  | solarHours
deriving DecidableEq, Repr

/-- Clock hour of a timestamp, `datetime.dt.hour`. -/
def hourOfDay (t : ℤ) : ℤ := (t % 1440) / 60

/-- The period filter of the statistics view: the full day keeps every row,
solar hours keep the rows whose clock hour lies in 6..17 (a NaT datetime
has no clock hour and is dropped by `isin`). -/
def periodFilter : Period → List Row → List Row
  | .fullDay, rows => rows
  | .solarHours, rows =>
      rows.filter (fun r =>
        match rowGet r "datetime" with
        | .time t => decide (6 ≤ hourOfDay t ∧ hourOfDay t ≤ 17)
        | _ => false)

/-- The numeric values of a price column over a row list (NaN skipped). -/
def colNums (rows : List Row) (pc : String) : List ℚ :=
  rows.filterMap (fun r =>
    match rowGet r pc with
    | .num q => some q
    | _ => none)

/-- NaN-skipping mean of a series, `none` for NaN. -/
def meanQ : List ℚ → Option ℚ
  | [] => none
  | q :: qs => some (((q :: qs).sum) / ((q :: qs).length : ℚ))

/-- NaN-skipping median of a series: middle of the sorted values, or the
mean of the two middle values at even length. -/
def medianQ (qs : List ℚ) : Option ℚ :=
  match sortK (fun q => q) qs with
  | [] => none
  | s :: ss =>
      let l := s :: ss
      if (l.length) % 2 = 1 then l.get? (l.length / 2)
      else
        match l.get? (l.length / 2 - 1), l.get? (l.length / 2) with
        | some a, some b => some ((a + b) / 2)
        | _, _ => none

/-- The summary the statistics view renders: the four key metrics and the
average-price-by-hour-of-day table (`none` models a NaN metric). -/
structure Summary where
  meanPrice : Option ℚ
  medianPrice : Option ℚ
  highestPrice : Option ℚ
  lowestPrice : Option ℚ
  hourlyAvg : List (ℤ × Option ℚ)
deriving DecidableEq, Repr

/-- The rows of a filtered series falling at clock hour `h`. -/
def hourGroup (rows : List Row) (h : ℤ) : List Row :=
  rows.filterMap (fun r =>
    match rowGet r "datetime" with
    | .time t => if hourOfDay t = h then some r else none
    | _ => none)

/-- Model of `display_statistical_analysis`: apply the period filter first;
if nothing is left, stop with no summary (the no-data warning); otherwise
compute mean, median, max and min of the filtered prices and the per-hour
mean table over the hours actually present (`groupby` sorts hours
ascending and ignores rows with no clock hour). -/
def display_statistical_analysis (df : Frame) (pc : String) (p : Period) :
    Option Summary :=
  let rows := periodFilter p df.rows
  if rows = [] then none
  else
    some ⟨meanQ (colNums rows pc),
          medianQ (colNums rows pc),
          (colNums rows pc).max?,
          (colNums rows pc).min?,
          (List.range 24).filterMap (fun h =>
            match hourGroup rows (h : ℤ) with
            | [] => none
            | g => some ((h : ℤ), meanQ (colNums g pc)))⟩

/-- Header row of `df.to_csv(index=False)`: the column names. -/
def csvHeader (df : Frame) : List String := df.cols

/-- Data rows of `df.to_csv(index=False)`: one cell per column per row, no
index column. -/
def csvCells (df : Frame) : List (List Value) :=
  df.rows.map (fun r => df.cols.map (fun c => rowGet r c))

/-- Re-encoding of one row from the hour-ending-string convention to the
integer delivery-hour convention: the `hourEnding` binding is replaced by a
`deliveryHour` binding carrying the same hour as an integer, everything
else is untouched. -/
def swapRow : Row → Row
  | [] => []
  | (k, v) :: r =>
      (if k = "hourEnding" then
        ("deliveryHour", Value.num (((parseHourEnding v).getD 0 : ℤ) : ℚ))
      else (k, v)) :: swapRow r

/-- Re-encoding of a whole record set from the hour-ending-string
convention to the integer delivery-hour convention. -/
def swapToDeliveryHour (df : Frame) : Frame :=
  ⟨df.cols.map (fun c => if c = "hourEnding" then "deliveryHour" else c),
   df.rows.map swapRow⟩

/-- Minutes on the time axis at 2024-01-01 00:00 (days since the epoch
times 1440). -/
def date20240101 : ℤ := 28401120

/-- The two-row scenario of the spec: one well-formed row and one row whose
price does not parse. -/
def exMalformedPrice : Frame :=
  ⟨["deliveryDate", "hourEnding", "LMP"],
   [[("deliveryDate", .time date20240101), ("hourEnding", .str "01:00"),
     ("LMP", .str "20.5")],
    [("deliveryDate", .time date20240101), ("hourEnding", .str "02:00"),
     ("LMP", .str "abc")]]⟩

/-- Two rows naming the same delivery date and the same hour ending, as
overlapping pagination would produce. -/
def exDuplicate : Frame :=
  ⟨["deliveryDate", "hourEnding", "LMP"],
   [[("deliveryDate", .time date20240101), ("hourEnding", .str "01:00"),
     ("LMP", .num 1)],
    [("deliveryDate", .time date20240101), ("hourEnding", .str "01:00"),
     ("LMP", .num 2)]]⟩

/-- A well-formed row followed by a row whose hour-ending string has a
non-numeric hour component. -/
def exBadHourEnding : Frame :=
  ⟨["deliveryDate", "hourEnding", "LMP"],
   [[("deliveryDate", .time date20240101), ("hourEnding", .str "01:00"),
     ("LMP", .num 1)],
    [("deliveryDate", .time date20240101), ("hourEnding", .str "abc:00"),
     ("LMP", .num 2)]]⟩

/-- A canonical series with two samples in the hour starting at minute 0,
none in the hour starting at minute 60, and one in the hour starting at
minute 120. -/
def exHourGap : Frame :=
  ⟨["datetime", "LMP"],
   [[("datetime", .time 0), ("LMP", .num 10)],
    [("datetime", .time 15), ("LMP", .num 20)],
    [("datetime", .time 120), ("LMP", .num 40)]]⟩

/-- A frame carrying a full timestamp column and both day-ahead date/hour
columns at once, to exercise the detection priority. -/
def exBothEncodings : Frame :=
  ⟨["SCEDTimestamp", "deliveryDate", "hourEnding", "LMP"],
   [[("SCEDTimestamp", .time 500), ("deliveryDate", .time date20240101),
     ("hourEnding", .str "01:00"), ("LMP", .num 3)]]⟩

/-- A frame with no recognizable timestamp encoding. -/
def exNoSchema : Frame :=
  ⟨["foo", "LMP"], [[("foo", .num 1), ("LMP", .num 2)]]⟩

/-- A canonical series carrying a location column next to datetime and
price, as normalization of a settlement-point report would produce it. -/
def exWithLocation : Frame :=
  ⟨["datetime", "LMP", "settlementPoint"],
   [[("datetime", .time 0), ("LMP", .num 10), ("settlementPoint", .str "HB_HOUSTON")],
    [("datetime", .time 15), ("LMP", .num 20), ("settlementPoint", .str "HB_HOUSTON")]]⟩

/-! ### Lemmas about row access and update -/

theorem rowGet_rowSet_self (r : Row) (c : String) (v : Value) :
    rowGet (rowSet r c v) c = v := by
  induction r with
  | nil => simp [rowSet, rowGet]
  | cons p r ih =>
      obtain ⟨k, w⟩ := p
      by_cases h : k = c
      · simp [rowSet, rowGet, h]
      · simp [rowSet, rowGet, h, ih]

theorem rowGet_rowSet_ne (r : Row) {c c2 : String} (v : Value) (h : c2 ≠ c) :
    rowGet (rowSet r c v) c2 = rowGet r c2 := by
  induction r with
  | nil => simp [rowSet, rowGet, Ne.symm h]
  | cons p r ih =>
      obtain ⟨k, w⟩ := p
      by_cases hk : k = c
      · subst hk
        simp [rowSet, rowGet, Ne.symm h]
      · simp [rowSet, rowGet, hk, ih]

/-! ### Lemmas about the sort used to model `sort_values` -/

theorem insertK_perm {α κ : Type} [LinearOrder κ] (key : α → κ) (a : α)
    (l : List α) : List.Perm (insertK key a l) (a :: l) := by
  induction l with
  | nil => simp [insertK]
  | cons b l ih =>
      by_cases h : key a ≤ key b
      · simp [insertK, h]
      · simp only [insertK, if_neg h]
        exact (ih.cons b).trans (List.Perm.swap a b l)

theorem sortK_perm {α κ : Type} [LinearOrder κ] (key : α → κ) (l : List α) :
    List.Perm (sortK key l) l := by
  induction l with
  | nil => simp [sortK]
  | cons a l ih => exact (insertK_perm key a (sortK key l)).trans (ih.cons a)

theorem insertK_pairwise {α κ : Type} [LinearOrder κ] (key : α → κ) (a : α)
    {l : List α} (h : l.Pairwise (fun x y => key x ≤ key y)) :
    (insertK key a l).Pairwise (fun x y => key x ≤ key y) := by
  induction l with
  | nil => simp [insertK]
  | cons b l ih =>
      rcases List.pairwise_cons.mp h with ⟨hb, hl⟩
      by_cases hab : key a ≤ key b
      · rw [show insertK key a (b :: l) = a :: b :: l by simp [insertK, hab]]
        refine List.pairwise_cons.mpr ⟨?_, h⟩
        intro x hx
        rcases List.mem_cons.mp hx with hx | hx
        · subst hx; exact hab
        · exact hab.trans (hb x hx)
      · rw [show insertK key a (b :: l) = b :: insertK key a l by
              simp [insertK, hab]]
        refine List.pairwise_cons.mpr ⟨?_, ih hl⟩
        intro x hx
        rcases List.mem_cons.mp ((insertK_perm key a l).mem_iff.mp hx) with
          hx2 | hx2
        · subst hx2
          exact (lt_of_not_le hab).le
        · exact hb x hx2

theorem sortK_pairwise {α κ : Type} [LinearOrder κ] (key : α → κ)
    (l : List α) : (sortK key l).Pairwise (fun x y => key x ≤ key y) := by
  induction l with
  | nil => simp [sortK]
  | cons a l ih => exact insertK_pairwise key a ih

theorem sortK_eq_self {α κ : Type} [LinearOrder κ] (key : α → κ)
    {l : List α} (h : l.Pairwise (fun x y => key x ≤ key y)) :
    sortK key l = l := by
  induction l with
  | nil => simp [sortK]
  | cons a l ih =>
      rcases List.pairwise_cons.mp h with ⟨ha, hl⟩
      rw [sortK, ih hl]
      cases l with
      | nil => simp [insertK]
      | cons b l2 => simp [insertK, ha b (by simp)]

/-! ### Congruence of the pipeline stages along a row correspondence -/

theorem forall2_map_rel {α β : Type} {E : α → α → Prop} {F : β → β → Prop}
    {f g : α → β} (hfg : ∀ a b, E a b → F (f a) (g b)) :
    ∀ {l1 l2 : List α}, List.Forall₂ E l1 l2 →
      List.Forall₂ F (l1.map f) (l2.map g) := by
  intro l1 l2 h
  induction h with
  | nil => simp
  | cons hab _ ih => exact List.Forall₂.cons (hfg _ _ hab) ih

theorem forall2_map_eq {α β : Type} {E : α → α → Prop} {f g : α → β}
    (hfg : ∀ a b, E a b → f a = g b) :
    ∀ {l1 l2 : List α}, List.Forall₂ E l1 l2 → l1.map f = l2.map g := by
  intro l1 l2 h
  induction h with
  | nil => simp
  | cons hab _ ih => simp [hfg _ _ hab, ih]

theorem forall2_filter {α : Type} {E : α → α → Prop} {p q : α → Bool}
    (hpq : ∀ a b, E a b → p a = q b) :
    ∀ {l1 l2 : List α}, List.Forall₂ E l1 l2 →
      List.Forall₂ E (l1.filter p) (l2.filter q) := by
  intro l1 l2 h
  induction h with
  | nil => simp
  | cons hab h2 ih =>
      rename_i a b l1 l2
      by_cases hpa : p a = true
      · have hqb : q b = true := (hpq a b hab) ▸ hpa
        simpa [List.filter, hpa, hqb] using List.Forall₂.cons hab ih
      · have hqb : ¬ q b = true := fun hq => hpa ((hpq a b hab).symm ▸ hq)
        simpa [List.filter, hpa, hqb] using ih

theorem forall2_insertK {α κ : Type} [LinearOrder κ] {E : α → α → Prop}
    (key : α → κ) (hkey : ∀ a b, E a b → key a = key b) {a b : α}
    (hab : E a b) :
    ∀ {l1 l2 : List α}, List.Forall₂ E l1 l2 →
      List.Forall₂ E (insertK key a l1) (insertK key b l2) := by
  intro l1 l2 h
  induction h with
  | nil => simpa [insertK] using List.Forall₂.cons hab List.Forall₂.nil
  | cons hxy h2 ih =>
      rename_i x y l1 l2
      by_cases hc : key a ≤ key x
      · have hc2 : key b ≤ key y := by
          rw [← hkey a b hab, ← hkey x y hxy]; exact hc
        simpa [insertK, hc, hc2] using
          List.Forall₂.cons hab (List.Forall₂.cons hxy h2)
      · have hc2 : ¬ key b ≤ key y := by
          rw [← hkey a b hab, ← hkey x y hxy]; exact hc
        simpa [insertK, hc, hc2] using List.Forall₂.cons hxy ih

theorem forall2_sortK {α κ : Type} [LinearOrder κ] {E : α → α → Prop}
    (key : α → κ) (hkey : ∀ a b, E a b → key a = key b) :
    ∀ {l1 l2 : List α}, List.Forall₂ E l1 l2 →
      List.Forall₂ E (sortK key l1) (sortK key l2) := by
  intro l1 l2 h
  induction h with
  | nil => simp [sortK]
  | cons hab h2 ih => exact forall2_insertK key hkey hab ih

/-! ### Lemmas about columnwise fallible operations -/

theorem optList_none_of_mem {α β : Type} {f : α → Option β} {l : List α}
    {a : α} (ha : a ∈ l) (hfa : f a = none) : optList f l = none := by
  induction l with
  | nil => cases ha
  | cons x l ih =>
      rcases List.mem_cons.mp ha with ha | ha
      · subst ha
        simp [optList, hfa]
      · rw [optList, ih ha]
        cases f x <;> rfl

theorem optList_some_of_all {α β : Type} {f : α → Option β} {l : List α}
    (h : ∀ a ∈ l, ∃ b, f a = some b) : ∃ l2, optList f l = some l2 := by
  induction l with
  | nil => exact ⟨[], rfl⟩
  | cons x l ih =>
      rcases h x (by simp) with ⟨b, hb⟩
      rcases ih (fun a ha => h a (by simp [ha])) with ⟨l2, hl2⟩
      exact ⟨b :: l2, by rw [optList, hb, hl2]⟩

/-! ### C1: hour-ending strings map to the start of the preceding hour -/

/-- C1: for every record set normalized through the delivery-date plus
hour-ending-string encoding, a row whose hour-ending string parses to `N`
is assigned the timestamp `N - 1` hours after midnight of its delivery
date; the string `01:00` parses to 1, so it lands on hour 0 (00:00) of the
delivery date, and `24:00` parses to 24, so it lands on hour 23 (23:00) of
the same calendar date. -/
theorem hourEnding_maps_to_start_of_preceding_hour
    (df df2 : Frame) (i : ℕ) (r : Row) (d N : ℤ)
    (hder : deriveCase2 df = some df2)
    (hi : df.rows[i]? = some r)
    (hd : rowGet r "deliveryDate" = .time d)
    (hN : parseHourEnding (rowGet r "hourEnding") = some N) :
    (∃ r2, df2.rows[i]? = some r2 ∧
      rowGet r2 "datetime" = .time (d + 60 * (N - 1))) ∧
    parseHourEnding (.str "01:00") = some 1 ∧
    parseHourEnding (.str "24:00") = some 24 := by
  refine ⟨?_, by decide, by decide⟩
  rw [deriveCase2] at hder
  rcases hopt : optList (fun r => parseHourEnding (rowGet r "hourEnding"))
      df.rows with _ | hs
  · rw [hopt] at hder; cases hder
  · rw [hopt] at hder
    have hdf2 : df2 = setCol
        (setCol df "hour" (fun r =>
          .num (((parseHourEnding (rowGet r "hourEnding")).getD 0 : ℤ) : ℚ)))
        "datetime" hourOffsetDatetime := by
      cases hder; rfl
    subst hdf2
    have hgetD : (parseHourEnding (rowGet r "hourEnding")).getD 0 = N := by
      rw [hN]; rfl
    refine ⟨rowSet (rowSet r "hour" (.num ((N : ℤ) : ℚ))) "datetime"
        (hourOffsetDatetime (rowSet r "hour" (.num ((N : ℤ) : ℚ)))), ?_, ?_⟩
    · show (List.map _ (List.map _ df.rows))[i]? = some _
      rw [List.getElem?_map, List.getElem?_map, hi]
      simp [hgetD]
    · rw [rowGet_rowSet_self, hourOffsetDatetime,
          rowGet_rowSet_ne _ _ (by decide), hd, rowGet_rowSet_self]
      simp [toDatetimeCoerce]

/-- Witness for the hour-ending law at a concrete record set: the first row
of the two-row scenario frame carries hour-ending `01:00` and is assigned
midnight of its delivery date. -/
theorem hourEnding_maps_witness :
    (∃ r2, ((deriveCase2 exMalformedPrice).getD Frame.empty).rows[0]? =
        some r2 ∧
      rowGet r2 "datetime" = .time (date20240101 + 60 * (1 - 1))) ∧
    parseHourEnding (.str "01:00") = some 1 ∧
    parseHourEnding (.str "24:00") = some 24 :=
  hourEnding_maps_to_start_of_preceding_hour exMalformedPrice
    ((deriveCase2 exMalformedPrice).getD Frame.empty) 0
    [("deliveryDate", .time date20240101), ("hourEnding", .str "01:00"),
     ("LMP", .str "20.5")]
    date20240101 1 (by rfl) (by rfl) (by rfl) (by decide)

/-! ### C9: a single malformed hour-ending empties the whole result -/

/-- C9: normalization never raises; a caught exception yields the empty
frame. In the delivery-date plus hour-ending encoding, one row whose
hour-ending string does not parse to an integer makes the whole-column
`astype(int)` raise, so the entire result is empty: every row, the
well-formed ones included, is discarded. -/
theorem bad_hourEnding_discards_all_rows (df : Frame) (pc : String) (r : Row)
    (hrows : df.rows ≠ []) (hcols : df.cols ≠ [])
    (hsced : "SCEDTimestamp" ∉ df.cols)
    (hdd : "deliveryDate" ∈ df.cols) (hhe : "hourEnding" ∈ df.cols)
    (hr : r ∈ df.rows)
    (hbad : parseHourEnding (rowGet r "hourEnding") = none) :
    process_and_normalize_result df pc = .failed ∧
    process_and_normalize_data df pc = Frame.empty := by
  have hopt : optList (fun r => parseHourEnding (rowGet r "hourEnding"))
      df.rows = none := optList_none_of_mem hr hbad
  have hres : process_and_normalize_result df pc = .failed := by
    rw [process_and_normalize_result,
        if_neg (show ¬(df.rows = [] ∨ df.cols = []) by
          rintro (h | h)
          exacts [hrows h, hcols h]),
        if_neg hsced, if_pos ⟨hdd, hhe⟩, deriveCase2, hopt]
  exact ⟨hres, by rw [process_and_normalize_data, hres]⟩

/-- Witness for C9: the concrete frame whose second row carries hour-ending
`abc:00` normalizes to the empty frame, dropping its well-formed first row
as well. -/
theorem bad_hourEnding_witness :
    process_and_normalize_result exBadHourEnding "LMP" = .failed ∧
    process_and_normalize_data exBadHourEnding "LMP" = Frame.empty :=
  bad_hourEnding_discards_all_rows exBadHourEnding "LMP"
    [("deliveryDate", .time date20240101), ("hourEnding", .str "abc:00"),
     ("LMP", .num 2)]
    (by decide) (by decide) (by decide) (by decide) (by decide) (by decide)
    (by decide)

/-! ### C3: timestamp-encoding detection priority -/

/-- C3: the schema detection follows the fixed source order with the first
match winning: a present `SCEDTimestamp` column is used even when the
date/hour columns are present too; otherwise delivery date plus hour-ending
string; otherwise delivery date plus integer delivery hour; otherwise the
function reports the actually present column names and returns no samples. -/
theorem schema_detection_first_match_wins (df : Frame) (pc : String)
    (hrows : df.rows ≠ []) (hcols : df.cols ≠ []) :
    ("SCEDTimestamp" ∈ df.cols →
      process_and_normalize_result df pc =
        match finishNormalize (deriveCase1 df) pc with
        | some f => .ok f
        | none => .failed) ∧
    ("SCEDTimestamp" ∉ df.cols → "deliveryDate" ∈ df.cols →
      "hourEnding" ∈ df.cols →
      process_and_normalize_result df pc =
        match deriveCase2 df with
        | none => .failed
        | some d =>
            match finishNormalize d pc with
            | some f => .ok f
            | none => .failed) ∧
    ("SCEDTimestamp" ∉ df.cols →
      ¬("deliveryDate" ∈ df.cols ∧ "hourEnding" ∈ df.cols) →
      "deliveryDate" ∈ df.cols → "deliveryHour" ∈ df.cols →
      process_and_normalize_result df pc =
        match deriveCase3 df with
        | none => .failed
        | some d =>
            match finishNormalize d pc with
            | some f => .ok f
            | none => .failed) ∧
    ("SCEDTimestamp" ∉ df.cols →
      ¬("deliveryDate" ∈ df.cols ∧ "hourEnding" ∈ df.cols) →
      ¬("deliveryDate" ∈ df.cols ∧ "deliveryHour" ∈ df.cols) →
      process_and_normalize_result df pc = .unrecognized df.cols ∧
      process_and_normalize_data df pc = Frame.empty) := by
  have hne : ¬(df.rows = [] ∨ df.cols = []) := by
    rintro (h | h)
    exacts [hrows h, hcols h]
  refine ⟨?_, ?_, ?_, ?_⟩
  · intro h1
    rw [process_and_normalize_result, if_neg hne, if_pos h1]
  · intro h1 h2 h3
    rw [process_and_normalize_result, if_neg hne, if_neg h1, if_pos ⟨h2, h3⟩]
  · intro h1 h2 h3 h4
    rw [process_and_normalize_result, if_neg hne, if_neg h1, if_neg h2,
        if_pos ⟨h3, h4⟩]
  · intro h1 h2 h3
    have hres : process_and_normalize_result df pc = .unrecognized df.cols := by
      rw [process_and_normalize_result, if_neg hne, if_neg h1, if_neg h2,
          if_neg h3]
    exact ⟨hres, by rw [process_and_normalize_data, hres]⟩

/-- Witness for C3 at a concrete frame carrying both a full timestamp
column and the day-ahead date/hour columns: the full-timestamp case wins. -/
theorem schema_detection_witness :
    process_and_normalize_result exBothEncodings "LMP" =
      match finishNormalize (deriveCase1 exBothEncodings) "LMP" with
      | some f => .ok f
      | none => .failed :=
  (schema_detection_first_match_wins exBothEncodings "LMP"
    (by decide) (by decide)).1 (by decide)

/-! ### C7: the filter comes first and empty inputs give empty results -/

/-- C7: the statistics engine applies the hour filter before computing
anything and produces no summary when the filtered series is empty; empty
input to the normalizer, the resampler, or the statistics engine never
raises and returns an explicit empty result. -/
theorem empty_filter_and_empty_inputs (df : Frame) (pc : String) (p : Period)
    (cols : List String) :
    (periodFilter p df.rows = [] →
      display_statistical_analysis df pc p = none) ∧
    display_statistical_analysis ⟨cols, []⟩ pc p = none ∧
    process_and_normalize_data ⟨cols, []⟩ pc = Frame.empty ∧
    resample_to_hourly_average ⟨cols, []⟩ pc = Frame.empty := by
  refine ⟨?_, ?_, ?_, ?_⟩
  · intro h
    rw [display_statistical_analysis]
    simp [h]
  · rw [display_statistical_analysis]
    cases p <;> simp [periodFilter]
  · rw [process_and_normalize_data, process_and_normalize_result]
    simp
  · rw [resample_to_hourly_average]
    simp

/-- Witness for C7 at concrete inputs: the solar-hours filter empties the
gap series (all its samples fall outside hours 6..17), so no summary is
produced, and the three components return empty results on an empty frame. -/
theorem empty_filter_witness :
    display_statistical_analysis exHourGap "LMP" .solarHours = none ∧
    display_statistical_analysis ⟨["x"], []⟩ "LMP" .solarHours = none ∧
    process_and_normalize_data ⟨["x"], []⟩ "LMP" = Frame.empty ∧
    resample_to_hourly_average ⟨["x"], []⟩ "LMP" = Frame.empty :=
  ⟨(empty_filter_and_empty_inputs exHourGap "LMP" .solarHours ["x"]).1
      (by decide),
   (empty_filter_and_empty_inputs exHourGap "LMP" .solarHours ["x"]).2.1,
   (empty_filter_and_empty_inputs exHourGap "LMP" .solarHours ["x"]).2.2.1,
   (empty_filter_and_empty_inputs exHourGap "LMP" .solarHours ["x"]).2.2.2⟩

/-! ### C4: output is sorted, but equal timestamps are not collapsed -/

theorem rowGet_selectRow_datetime (cols : List String) (pc : String)
    (r : Row) :
    rowGet (selectRow (essentialCols cols pc) r) "datetime" =
      rowGet r "datetime" := by
  simp [selectRow, essentialCols, rowGet]

theorem dtKey_selectRow (cols : List String) (pc : String) (r : Row) :
    dtKey (selectRow (essentialCols cols pc) r) = dtKey r := by
  rw [dtKey, dtKey, rowGet_selectRow_datetime]

theorem finishNormalize_rows {df : Frame} {pc : String} {f : Frame}
    (h : finishNormalize df pc = some f) :
    f.rows = (sortK dtKey ((coercePrices df pc).rows.filter (keepRow pc))).map
      (selectRow (essentialCols (coercePrices df pc).cols pc)) ∧
    f.cols = essentialCols (coercePrices df pc).cols pc ∧ pc ∈ df.cols := by
  rw [finishNormalize] at h
  by_cases hpc : pc ∈ df.cols
  · rw [if_pos hpc] at h
    cases h
    exact ⟨rfl, rfl, hpc⟩
  · rw [if_neg hpc] at h
    cases h

theorem finishNormalize_sorted {df : Frame} {pc : String} {f : Frame}
    (h : finishNormalize df pc = some f) :
    f.rows.Pairwise (fun a b => dtKey a ≤ dtKey b) := by
  obtain ⟨hrows, -, -⟩ := finishNormalize_rows h
  rw [hrows, List.pairwise_map]
  refine (sortK_pairwise dtKey _).imp ?_
  intro a b hab
  rwa [dtKey_selectRow, dtKey_selectRow]

theorem result_ok_inv (df : Frame) (pc : String) (f : Frame)
    (h : process_and_normalize_result df pc = .ok f) :
    f = Frame.empty ∨ ∃ d, finishNormalize d pc = some f := by
  rw [process_and_normalize_result] at h
  by_cases h1 : df.rows = [] ∨ df.cols = []
  · rw [if_pos h1] at h
    cases h
    exact .inl rfl
  · rw [if_neg h1] at h
    by_cases h2 : "SCEDTimestamp" ∈ df.cols
    · rw [if_pos h2] at h
      rcases hfin : finishNormalize (deriveCase1 df) pc with _ | f2
      · rw [hfin] at h; cases h
      · rw [hfin] at h; cases h
        exact .inr ⟨_, hfin⟩
    · rw [if_neg h2] at h
      by_cases h3 : "deliveryDate" ∈ df.cols ∧ "hourEnding" ∈ df.cols
      · rw [if_pos h3] at h
        rcases hder : deriveCase2 df with _ | d
        · rw [hder] at h; cases h
        · rw [hder] at h
          change (match finishNormalize d pc with
            | some f => NormResult.ok f
            | none => NormResult.failed) = NormResult.ok f at h
          rcases hfin : finishNormalize d pc with _ | f2
          · rw [hfin] at h; cases h
          · rw [hfin] at h; cases h
            exact .inr ⟨_, hfin⟩
      · rw [if_neg h3] at h
        by_cases h4 : "deliveryDate" ∈ df.cols ∧ "deliveryHour" ∈ df.cols
        · rw [if_pos h4] at h
          rcases hder : deriveCase3 df with _ | d
          · rw [hder] at h; cases h
          · rw [hder] at h
            change (match finishNormalize d pc with
              | some f => NormResult.ok f
              | none => NormResult.failed) = NormResult.ok f at h
            rcases hfin : finishNormalize d pc with _ | f2
            · rw [hfin] at h; cases h
            · rw [hfin] at h; cases h
              exact .inr ⟨_, hfin⟩
        · rw [if_neg h4] at h
          cases h

/-- C4 (amended): for every input the produced frame is sorted
non-decreasing by timestamp, but samples sharing a timestamp are all
retained: the multiset of output timestamps equals the multiset of
timestamps of the rows surviving the NaN drop, so duplicates from
overlapping pagination are not collapsed. -/
theorem normalized_sorted_duplicates_kept (df : Frame) (pc : String) :
    (process_and_normalize_data df pc).rows.Pairwise
      (fun a b => dtKey a ≤ dtKey b) ∧
    (∀ df0 f, finishNormalize df0 pc = some f →
      List.Perm
        (f.rows.map (fun r => rowGet r "datetime"))
        (((coercePrices df0 pc).rows.filter (keepRow pc)).map
          (fun r => rowGet r "datetime"))) := by
  constructor
  · rw [process_and_normalize_data]
    rcases hres : process_and_normalize_result df pc with f | av | _
    · rcases result_ok_inv df pc f hres with rfl | ⟨d, hfin⟩
      · simp [Frame.empty]
      · exact finishNormalize_sorted hfin
    · simp [Frame.empty]
    · simp [Frame.empty]
  · intro df0 f hfin
    obtain ⟨hrows, -, -⟩ := finishNormalize_rows hfin
    rw [hrows, List.map_map]
    have heq : ((fun r => rowGet r "datetime") ∘
        selectRow (essentialCols (coercePrices df0 pc).cols pc)) =
        (fun r => rowGet r "datetime") := by
      funext r
      exact rowGet_selectRow_datetime _ _ _
    rw [heq]
    exact (sortK_perm dtKey _).map _

/-- Counterexample to C4 as stated: two rows naming the same delivery date
and hour ending survive normalization as two distinct output samples with
equal timestamps — nothing is collapsed and the output timestamps are not
pairwise distinct. -/
theorem duplicate_timestamps_not_collapsed :
    (process_and_normalize_data exDuplicate "LMP").rows.map
        (fun r => rowGet r "datetime") =
      [.time date20240101, .time date20240101] ∧
    ¬ List.Pairwise (fun a b => rowGet a "datetime" ≠ rowGet b "datetime")
        (process_and_normalize_data exDuplicate "LMP").rows := by
  exact ⟨by decide, by decide⟩

/-! ### C5: malformed rows are dropped, well-formed rows kept -/

theorem rowGet_selectRow_pc (cols : List String) {pc : String} (r : Row)
    (hne : pc ≠ "datetime") :
    rowGet (selectRow (essentialCols cols pc) r) pc = rowGet r pc := by
  simp [selectRow, essentialCols, rowGet, Ne.symm hne]

theorem keepRow_shape {pc : String} {r : Row} (h : keepRow pc r = true) :
    (∃ t, rowGet r "datetime" = .time t) ∧ ∃ q, rowGet r pc = .num q := by
  rw [keepRow, Bool.and_eq_true] at h
  constructor
  · rcases hv : rowGet r "datetime" with s | q | t | _ <;> rw [hv] at h <;>
      first
        | exact ⟨_, rfl⟩
        | simp at h
  · rcases hv : rowGet r pc with s | q | t | _ <;> rw [hv] at h <;>
      first
        | exact ⟨_, rfl⟩
        | simp at h

/-- C5: every sample produced by normalization carries a successfully
parsed timestamp and a successfully coerced numeric price — rows failing
either parse are dropped, never coerced to zero — and the spec's two-row
scenario produces exactly the one sample `(2024-01-01 00:00, 20.5)`. -/
theorem malformed_rows_dropped :
    (∀ (df : Frame) (pc : String) (r : Row),
      r ∈ (process_and_normalize_data df pc).rows →
      (∃ t, rowGet r "datetime" = .time t) ∧ ∃ q, rowGet r pc = .num q) ∧
    process_and_normalize_data exMalformedPrice "LMP" =
      ⟨["datetime", "LMP"],
       [[("datetime", .time date20240101), ("LMP", .num (20.5 : ℚ))]]⟩ := by
  constructor
  · intro df pc r hr
    rw [process_and_normalize_data] at hr
    rcases hres : process_and_normalize_result df pc with f | av | _ <;>
      rw [hres] at hr
    · rcases result_ok_inv df pc f hres with rfl | ⟨d, hfin⟩
      · cases hr
      · obtain ⟨hrows, -, -⟩ := finishNormalize_rows hfin
        rw [hrows] at hr
        rcases List.mem_map.mp hr with ⟨r0, hr0, rfl⟩
        have hr0k : r0 ∈ (coercePrices d pc).rows.filter (keepRow pc) :=
          (sortK_perm dtKey _).mem_iff.mp hr0
        have hkeep : keepRow pc r0 = true := (List.mem_filter.mp hr0k).2
        obtain ⟨⟨t, ht⟩, q, hq⟩ := keepRow_shape hkeep
        by_cases hpc : pc = "datetime"
        · subst hpc
          rw [ht] at hq
          cases hq
        · refine ⟨⟨t, ?_⟩, q, ?_⟩
          · rw [rowGet_selectRow_datetime, ht]
          · rw [rowGet_selectRow_pc _ _ hpc, hq]
    · cases hr
    · cases hr
  · have h1 : process_and_normalize_data exMalformedPrice "LMP" =
        ⟨["datetime", "LMP"],
         [[("datetime", .time date20240101),
           ("LMP", .num (((20 : ℕ) : ℚ) +
             ((5 : ℕ) : ℚ) / ((10 : ℚ) ^ (1 : ℕ))))]]⟩ := by rfl
    have h2 : (((20 : ℕ) : ℚ) + ((5 : ℕ) : ℚ) / ((10 : ℚ) ^ (1 : ℕ))) =
        (20.5 : ℚ) := by norm_num
    rw [h1, h2]

/-! ### C6: hourly resampling emits the closed bucket range -/

theorem resample_eq_of_validTimes {df : Frame} {pc : String} {t : ℤ}
    {ts : List ℤ} (hdt : "datetime" ∈ df.cols)
    (hvt : validTimes df.rows = t :: ts) :
    resample_to_hourly_average df pc =
      ⟨["datetime", pc], resampleRows df.rows pc t ts⟩ := by
  have hrows : df.rows ≠ [] := by
    intro h
    rw [h] at hvt
    cases hvt
  have hcols : df.cols ≠ [] := by
    intro h
    rw [h] at hdt
    cases hdt
  rw [resample_to_hourly_average,
      if_neg (by
        rintro (h | h | h)
        exacts [hrows h, hcols h, h hdt]),
      hvt]

/-- C6 (amended): empty input resamples to an empty result without error;
for non-empty input with valid timestamps the result has one row per hour
bucket in the closed range from the floor of the earliest timestamp to the
floor of the latest: a bucket containing samples carries the arithmetic
mean of its prices, and a bucket containing no sample still produces a row,
with a NaN price (no forward-filling). -/
theorem resample_hourly_buckets (df : Frame) (pc : String) :
    (df.rows = [] → resample_to_hourly_average df pc = Frame.empty) ∧
    (∀ t ts, validTimes df.rows = t :: ts → "datetime" ∈ df.cols →
      pc ≠ "datetime" →
      (resample_to_hourly_average df pc).cols = ["datetime", pc] ∧
      (resample_to_hourly_average df pc).rows.length =
        ((hfloor (ts.foldl max t) - hfloor (ts.foldl min t)) / 60).toNat + 1 ∧
      ∀ (i : ℕ) (r : Row), (resample_to_hourly_average df pc).rows[i]? = some r →
        rowGet r "datetime" =
          .time (hfloor (ts.foldl min t) + 60 * (i : ℤ)) ∧
        (bucketNums df.rows pc (hfloor (ts.foldl min t) + 60 * (i : ℤ)) = [] →
          rowGet r pc = .nan) ∧
        (∀ q qs,
          bucketNums df.rows pc (hfloor (ts.foldl min t) + 60 * (i : ℤ)) =
            q :: qs →
          rowGet r pc = .num ((q :: qs).sum / ((q :: qs).length : ℚ)))) := by
  constructor
  · intro h
    rw [resample_to_hourly_average, if_pos (.inl h)]
  · intro t ts hvt hdt hpc
    rw [resample_eq_of_validTimes hdt hvt]
    refine ⟨rfl, ?_, ?_⟩
    · show (resampleRows df.rows pc t ts).length = _
      rw [resampleRows, List.length_map, List.length_range]

    intro i r hir
    rw [show (Frame.mk ["datetime", pc] (resampleRows df.rows pc t ts)).rows =
          resampleRows df.rows pc t ts from rfl,
        resampleRows, List.getElem?_map] at hir
    rcases hi : (List.range (((hfloor (ts.foldl max t) -
        hfloor (ts.foldl min t)) / 60).toNat + 1))[i]? with _ | j
    · rw [hi] at hir
      cases hir
    · rw [hi] at hir
      obtain ⟨hji, -⟩ : j = i ∧ i < ((hfloor (ts.foldl max t) -
          hfloor (ts.foldl min t)) / 60).toNat + 1 := by
        rcases List.getElem?_eq_some.mp hi with ⟨hl, hv⟩
        rw [List.length_range] at hl
        rw [List.getElem_range] at hv
        exact ⟨hv.symm, hl⟩
      subst hji
      cases hir
      refine ⟨by simp [rowGet], ?_, ?_⟩
      · intro hb
        simp [rowGet, Ne.symm hpc, hb, meanValue]
      · intro q qs hb
        simp [rowGet, Ne.symm hpc, hb, meanValue]

/-- Counterexample to C6 as stated: resampling the three-sample gap series
(samples in the hours starting at minutes 0 and 120, none in the hour
starting at minute 60) emits three rows, including one for the empty
middle hour, whose price is NaN — an hour with no input samples does
produce an output sample. -/
theorem resample_gap_row_emitted :
    validTimes exHourGap.rows = [0, 15, 120] ∧
    bucketNums exHourGap.rows "LMP" 60 = [] ∧
    (resample_to_hourly_average exHourGap "LMP").rows.length = 3 ∧
    (resample_to_hourly_average exHourGap "LMP").rows[1]? =
      some [("datetime", Value.time 60), ("LMP", Value.nan)] := by
  refine ⟨by decide, by decide, by decide, by decide⟩

/-- Witness for the amended resampling law at concrete inputs: an empty
frame resamples to the empty result, and resampling the gap series yields
the two-column shape. -/
theorem resample_hourly_witness :
    resample_to_hourly_average ⟨["a"], []⟩ "LMP" = Frame.empty ∧
    (resample_to_hourly_average exHourGap "LMP").cols = ["datetime", "LMP"] :=
  ⟨(resample_hourly_buckets ⟨["a"], []⟩ "LMP").1 rfl,
   ((resample_hourly_buckets exHourGap "LMP").2 0 [15, 120] (by decide)
      (by decide) (by decide)).1⟩

/-! ### C10: the resampled series carries only timestamp and price -/

/-- C10: for a non-empty canonical series the hourly resampling output has
exactly the two columns datetime and price, so every location-identifying
column of the input is absent from the resampled series and from its CSV
export (whose header is the column list and whose data rows carry one cell
per column). -/
theorem resample_output_two_columns (df : Frame) (pc : String) (t : ℤ)
    (ts : List ℤ) (hdt : "datetime" ∈ df.cols)
    (hvt : validTimes df.rows = t :: ts) (hploc : pc ∉ locNames) :
    (resample_to_hourly_average df pc).cols = ["datetime", pc] ∧
    (∀ c ∈ locNames, c ∉ (resample_to_hourly_average df pc).cols) ∧
    csvHeader (resample_to_hourly_average df pc) = ["datetime", pc] ∧
    ∀ row ∈ csvCells (resample_to_hourly_average df pc), row.length = 2 := by
  have hre : resample_to_hourly_average df pc =
      ⟨["datetime", pc], resampleRows df.rows pc t ts⟩ :=
    resample_eq_of_validTimes hdt hvt
  refine ⟨by rw [hre], ?_, by rw [csvHeader, hre], ?_⟩
  · intro c hc hmem
    rw [hre] at hmem
    simp only [Frame.mk.injEq] at hmem
    rcases List.mem_cons.mp hmem with rfl | hmem2
    · exact absurd hc (by decide)
    · rcases List.mem_cons.mp hmem2 with rfl | hmem3
      · exact hploc hc
      · cases hmem3
  · intro row hrow
    rw [csvCells, hre] at hrow
    rcases List.mem_map.mp hrow with ⟨r, -, rfl⟩
    simp

/-- Witness for C10 at a concrete canonical series carrying a
settlement-point column: resampling drops it. -/
theorem resample_location_witness :
    (resample_to_hourly_average exWithLocation "LMP").cols =
      ["datetime", "LMP"] ∧
    "settlementPoint" ∉ (resample_to_hourly_average exWithLocation "LMP").cols ∧
    csvHeader (resample_to_hourly_average exWithLocation "LMP") =
      ["datetime", "LMP"] :=
  ⟨(resample_output_two_columns exWithLocation "LMP" 0 [15] (by decide)
      (by decide) (by decide)).1,
   (resample_output_two_columns exWithLocation "LMP" 0 [15] (by decide)
      (by decide) (by decide)).2.1 "settlementPoint" (by decide),
   (resample_output_two_columns exWithLocation "LMP" 0 [15] (by decide)
      (by decide) (by decide)).2.2.1⟩

/-- Witness for C5 at a concrete input: the surviving sample of the
duplicate-row frame carries a parsed timestamp and a numeric price. -/
theorem malformed_rows_witness :
    (∃ t, rowGet [("datetime", Value.time date20240101),
        ("LMP", Value.num 1)] "datetime" = .time t) ∧
    ∃ q, rowGet [("datetime", Value.time date20240101),
        ("LMP", Value.num 1)] "LMP" = .num q :=
  malformed_rows_dropped.1 exDuplicate "LMP"
    [("datetime", Value.time date20240101), ("LMP", Value.num 1)] (by decide)

/-- Witness for the amended C4 law at concrete inputs: the duplicate-row
output is sorted, and the finish stage of the gap series preserves the
multiset of timestamps. -/
theorem normalized_sorted_witness :
    (process_and_normalize_data exDuplicate "LMP").rows.Pairwise
      (fun a b => dtKey a ≤ dtKey b) ∧
    List.Perm
      (((finishNormalize exHourGap "LMP").getD Frame.empty).rows.map
        (fun r => rowGet r "datetime"))
      (((coercePrices exHourGap "LMP").rows.filter (keepRow "LMP")).map
        (fun r => rowGet r "datetime")) :=
  ⟨(normalized_sorted_duplicates_kept exDuplicate "LMP").1,
   (normalized_sorted_duplicates_kept exDuplicate "LMP").2 exHourGap
     ((finishNormalize exHourGap "LMP").getD Frame.empty) (by rfl)⟩

/-! ### C8: normalization is the identity on recognized canonical series -/

theorem result_sced_branch (df : Frame) (pc : String)
    (hne : ¬(df.rows = [] ∨ df.cols = []))
    (hs : "SCEDTimestamp" ∈ df.cols) :
    process_and_normalize_result df pc =
      match finishNormalize (deriveCase1 df) pc with
      | some f => .ok f
      | none => .failed := by
  rw [process_and_normalize_result, if_neg hne, if_pos hs]

/-- C8: re-normalizing an already-canonical series whose timestamp field is
a recognized one — sorted samples under a full-timestamp column with
numeric prices — returns exactly the same samples in the same order: the
timestamp column is re-parsed to itself, prices coerce to themselves, no
row is dropped and the sort leaves the sorted input unchanged. -/
theorem normalize_idempotent_on_recognized (samples : List (ℤ × ℚ))
    (pc : String)
    (hpc1 : pc ≠ "SCEDTimestamp") (hpc2 : pc ≠ "datetime")
    (hpc3 : pc ∉ locNames)
    (hsorted : samples.Pairwise (fun a b => a.1 ≤ b.1)) :
    (samples = [] →
      (process_and_normalize_data
        ⟨["SCEDTimestamp", pc],
         samples.map (fun s =>
           [("SCEDTimestamp", .time s.1), (pc, .num s.2)])⟩ pc).rows = []) ∧
    (samples ≠ [] →
      process_and_normalize_data
        ⟨["SCEDTimestamp", pc],
         samples.map (fun s =>
           [("SCEDTimestamp", .time s.1), (pc, .num s.2)])⟩ pc =
      ⟨["datetime", pc],
       samples.map (fun s => [("datetime", .time s.1), (pc, .num s.2)])⟩) := by
  constructor
  · intro h
    subst h
    rw [process_and_normalize_data, process_and_normalize_result,
        if_pos (.inl rfl)]
    rfl
  intro hne
  have hsp : ¬("settlementPoint" = pc) :=
    fun h => hpc3 (h ▸ (by decide : "settlementPoint" ∈ locNames))
  have hbn : ¬("busName" = pc) :=
    fun h => hpc3 (h ▸ (by decide : "busName" ∈ locNames))
  have heb : ¬("electricalBus" = pc) :=
    fun h => hpc3 (h ▸ (by decide : "electricalBus" ∈ locNames))
  set df : Frame :=
    ⟨["SCEDTimestamp", pc],
     samples.map (fun s =>
       [("SCEDTimestamp", .time s.1), (pc, .num s.2)])⟩ with hdf
  set df1 : Frame :=
    ⟨["SCEDTimestamp", pc, "datetime"],
     samples.map (fun s =>
       [("SCEDTimestamp", .time s.1), (pc, .num s.2),
        ("datetime", .time s.1)])⟩ with hdf1
  have hnil : ¬(df.rows = [] ∨ df.cols = []) := by
    rintro (h | h)
    · rw [hdf] at h
      exact hne (List.map_eq_nil_iff.mp h)
    · rw [hdf] at h
      cases h
  have hd1 : deriveCase1 df = df1 := by
    rw [deriveCase1, setCol, hdf, hdf1]
    simp only [Frame.mk.injEq]
    constructor
    · rw [if_neg (by
        simp only [List.mem_cons, List.not_mem_nil, or_false]
        push_neg
        exact ⟨by decide, Ne.symm hpc2⟩)]
      rfl
    · rw [List.map_map]
      refine List.map_congr_left ?_
      intro s hs
      simp [rowSet, rowGet, toDatetimeCoerce, hpc2]
  have hmem1 : pc ∈ df1.cols := by
    rw [hdf1]
    simp
  have hcoerce : coercePrices df1 pc = df1 := by
    rw [coercePrices, setCol, hdf1]
    simp only [Frame.mk.injEq]
    constructor
    · rw [if_pos (by simp)]
    · rw [List.map_map]
      refine List.map_congr_left ?_
      intro s hs
      simp [rowSet, rowGet, toNumericCoerce, Ne.symm hpc1]
  have hfilter : df1.rows.filter (keepRow pc) = df1.rows := by
    refine List.filter_eq_self.mpr ?_
    intro r hr
    rw [hdf1] at hr
    rcases List.mem_map.mp hr with ⟨s, -, rfl⟩
    simp [keepRow, rowGet, Ne.symm hpc1, hpc2]
  have hsort : sortK dtKey df1.rows = df1.rows := by
    refine sortK_eq_self dtKey ?_
    rw [hdf1]
    refine List.pairwise_map.mpr ?_
    refine hsorted.imp ?_
    intro a b hab
    simpa [dtKey, rowGet, hpc2] using hab
  have hes : essentialCols df1.cols pc = ["datetime", pc] := by
    rw [essentialCols, hdf1, locNames]
    simp [hsp, hbn, heb]
  have hsel : df1.rows.map (selectRow ["datetime", pc]) =
      samples.map (fun s => [("datetime", .time s.1), (pc, .num s.2)]) := by
    rw [hdf1, List.map_map]
    refine List.map_congr_left ?_
    intro s hs
    simp [selectRow, rowGet, Ne.symm hpc1, hpc2]
  have hfin : finishNormalize (deriveCase1 df) pc =
      some ⟨["datetime", pc],
        samples.map (fun s => [("datetime", .time s.1), (pc, .num s.2)])⟩ := by
    rw [hd1, finishNormalize, if_pos hmem1, hcoerce, hfilter, hsort, hes, hsel]
  have hres : process_and_normalize_result df pc =
      .ok ⟨["datetime", pc],
        samples.map (fun s => [("datetime", .time s.1), (pc, .num s.2)])⟩ := by
    rw [result_sced_branch df pc hnil (by rw [hdf]; simp), hfin]
  rw [process_and_normalize_data, hres]

/-- Witness for C8 at a concrete two-sample canonical series. -/
theorem normalize_idempotent_witness :
    process_and_normalize_data
      ⟨["SCEDTimestamp", "LMP"],
       [((0 : ℤ), (10 : ℚ)), ((60 : ℤ), (20 : ℚ))].map (fun s =>
         [("SCEDTimestamp", .time s.1), ("LMP", .num s.2)])⟩ "LMP" =
    ⟨["datetime", "LMP"],
     [((0 : ℤ), (10 : ℚ)), ((60 : ℤ), (20 : ℚ))].map (fun s =>
       [("datetime", .time s.1), ("LMP", .num s.2)])⟩ :=
  (normalize_idempotent_on_recognized
    [((0 : ℤ), (10 : ℚ)), ((60 : ℤ), (20 : ℚ))] "LMP"
    (by decide) (by decide) (by decide)
    (by simp)).2 (by decide)

/-! ### C2: integer delivery-hour and hour-ending-string encodings agree -/

/-- Two rows agree on every column other than the two hour-encoding
columns. All pipeline stages downstream of the hour parse read only such
columns, so this correspondence is preserved to the output. -/
def rowsAgree (a b : Row) : Prop :=
  ∀ c, c ≠ "hourEnding" → c ≠ "deliveryHour" → rowGet a c = rowGet b c

theorem rowGet_swapRow_ne (r : Row) {c : String} (h1 : c ≠ "hourEnding")
    (h2 : c ≠ "deliveryHour") : rowGet (swapRow r) c = rowGet r c := by
  induction r with
  | nil => rfl
  | cons p r ih =>
      obtain ⟨k, v⟩ := p
      by_cases hk : k = "hourEnding"
      · subst hk
        rw [swapRow, if_pos rfl]
        rw [rowGet, if_neg (Ne.symm h2), rowGet, if_neg (Ne.symm h1), ih]
      · rw [swapRow, if_neg hk]
        rw [rowGet, rowGet]
        by_cases hkc : k = c
        · rw [if_pos hkc, if_pos hkc]
        · rw [if_neg hkc, if_neg hkc, ih]

theorem rowGet_swapRow_dh (r : Row) (N : ℤ)
    (hnd : rowHas r "deliveryHour" = false)
    (hN : parseHourEnding (rowGet r "hourEnding") = some N) :
    rowGet (swapRow r) "deliveryHour" = .num ((N : ℤ) : ℚ) := by
  induction r with
  | nil =>
      rw [rowGet] at hN
      cases hN
  | cons p r ih =>
      obtain ⟨k, v⟩ := p
      rw [rowHas, Bool.or_eq_false_iff] at hnd
      obtain ⟨hk1, hk2⟩ := hnd
      by_cases hk : k = "hourEnding"
      · subst hk
        rw [rowGet, if_pos rfl] at hN
        rw [swapRow, if_pos rfl, rowGet, if_pos rfl, hN]
        rfl
      · rw [rowGet, if_neg hk] at hN
        rw [swapRow, if_neg hk, rowGet,
            if_neg (by simpa using hk1), ih hk2 hN]

theorem forall2_of_map {α β : Type} {R : β → β → Prop} {f g : α → β}
    {l : List α} (h : ∀ a ∈ l, R (f a) (g a)) :
    List.Forall₂ R (l.map f) (l.map g) := by
  induction l with
  | nil => simp
  | cons a l ih =>
      exact List.Forall₂.cons (h a (by simp))
        (ih (fun a ha => h a (by simp [ha])))

theorem mem_rename_iff (cols : List String) {c : String}
    (h1 : c ≠ "hourEnding") (h2 : c ≠ "deliveryHour") :
    (c ∈ cols.map (fun c0 =>
      if c0 = "hourEnding" then "deliveryHour" else c0)) ↔ c ∈ cols := by
  rw [List.mem_map]
  constructor
  · rintro ⟨a, ha, hfa⟩
    by_cases hk : a = "hourEnding"
    · rw [if_pos hk] at hfa
      exact absurd hfa.symm h2
    · rw [if_neg hk] at hfa
      exact hfa ▸ ha
  · intro h
    exact ⟨c, h, by rw [if_neg h1]⟩

theorem hourEnding_not_mem_rename (cols : List String) :
    "hourEnding" ∉ cols.map (fun c0 =>
      if c0 = "hourEnding" then "deliveryHour" else c0) := by
  rw [List.mem_map]
  rintro ⟨a, ha, hfa⟩
  by_cases hk : a = "hourEnding"
  · rw [if_pos hk] at hfa
    exact absurd hfa (by decide)
  · rw [if_neg hk] at hfa
    exact hk hfa

theorem dh_mem_rename (cols : List String) (h : "hourEnding" ∈ cols) :
    "deliveryHour" ∈ cols.map (fun c0 =>
      if c0 = "hourEnding" then "deliveryHour" else c0) :=
  List.mem_map.mpr ⟨"hourEnding", h, by rw [if_pos rfl]⟩

theorem rowsAgree_rowSet {a b : Row} (c : String) (v : Value)
    (hab : rowsAgree a b) : rowsAgree (rowSet a c v) (rowSet b c v) := by
  intro c2 h1 h2
  by_cases hc : c2 = c
  · subst hc
    rw [rowGet_rowSet_self, rowGet_rowSet_self]
  · rw [rowGet_rowSet_ne _ _ hc, rowGet_rowSet_ne _ _ hc, hab c2 h1 h2]

theorem dtKey_congr {a b : Row} (hab : rowsAgree a b) : dtKey a = dtKey b := by
  rw [dtKey, dtKey, hab "datetime" (by decide) (by decide)]

theorem keepRow_congr {pc : String} {a b : Row} (h1 : pc ≠ "hourEnding")
    (h2 : pc ≠ "deliveryHour") (hab : rowsAgree a b) :
    keepRow pc a = keepRow pc b := by
  rw [keepRow, keepRow, hab "datetime" (by decide) (by decide), hab pc h1 h2]

theorem hourOffsetDatetime_congr {a b : Row} (hab : rowsAgree a b) :
    hourOffsetDatetime a = hourOffsetDatetime b := by
  rw [hourOffsetDatetime, hourOffsetDatetime,
      hab "deliveryDate" (by decide) (by decide),
      hab "hour" (by decide) (by decide)]

theorem selectRow_congr {cs : List String} {a b : Row}
    (hcs : ∀ c ∈ cs, c ≠ "hourEnding" ∧ c ≠ "deliveryHour")
    (hab : rowsAgree a b) : selectRow cs a = selectRow cs b := by
  rw [selectRow, selectRow]
  refine List.map_congr_left ?_
  intro c hc
  rw [hab c (hcs c hc).1 (hcs c hc).2]

theorem mem_addIf (cs : List String) (c c2 : String) :
    (c ∈ if c2 ∈ cs then cs else cs ++ [c2]) ↔ c = c2 ∨ c ∈ cs := by
  by_cases h : c2 ∈ cs
  · rw [if_pos h]
    constructor
    · exact .inr
    · rintro (rfl | hc)
      exacts [h, hc]
  · rw [if_neg h, List.mem_append, List.mem_singleton, or_comm]

theorem mem_setCol_cols (df : Frame) (c0 : String) (f : Row → Value)
    (c : String) : c ∈ (setCol df c0 f).cols ↔ c = c0 ∨ c ∈ df.cols :=
  mem_addIf df.cols c c0

theorem setCol_cols_of_mem {df : Frame} {c : String} (f : Row → Value)
    (h : c ∈ df.cols) : (setCol df c f).cols = df.cols := by
  rw [setCol]
  exact if_pos h

theorem astypeIntCell_intCast (N : ℤ) :
    astypeIntCell (.num ((N : ℤ) : ℚ)) = some N := by
  rw [astypeIntCell]
  rw [Rat.num_intCast, Rat.den_intCast]
  norm_num

theorem result_he_branch (df : Frame) (pc : String)
    (hne : ¬(df.rows = [] ∨ df.cols = []))
    (hsced : "SCEDTimestamp" ∉ df.cols)
    (hdd : "deliveryDate" ∈ df.cols) (hhe : "hourEnding" ∈ df.cols) :
    process_and_normalize_result df pc =
      match deriveCase2 df with
      | none => .failed
      | some d =>
          match finishNormalize d pc with
          | some f => .ok f
          | none => .failed := by
  rw [process_and_normalize_result, if_neg hne, if_neg hsced,
      if_pos ⟨hdd, hhe⟩]

theorem result_dh_branch (df : Frame) (pc : String)
    (hne : ¬(df.rows = [] ∨ df.cols = []))
    (hsced : "SCEDTimestamp" ∉ df.cols)
    (hnothe : ¬("deliveryDate" ∈ df.cols ∧ "hourEnding" ∈ df.cols))
    (hdd : "deliveryDate" ∈ df.cols) (hdh : "deliveryHour" ∈ df.cols) :
    process_and_normalize_result df pc =
      match deriveCase3 df with
      | none => .failed
      | some d =>
          match finishNormalize d pc with
          | some f => .ok f
          | none => .failed := by
  rw [process_and_normalize_result, if_neg hne, if_neg hsced, if_neg hnothe,
      if_pos ⟨hdd, hdh⟩]

/-- C2: re-encoding a record set from the hour-ending-string convention to
the integer delivery-hour convention (each parseable `HH:MM` hour-ending
replaced by the integer hour it parses to) leaves the normalized output
unchanged: integer hour 1 lands on 00:00 and integer hour 24 on 23:00
exactly as the string-encoded rows do, and the whole output frames are
equal. -/
theorem int_hour_matches_string_hour (df : Frame) (pc : String)
    (hsced : "SCEDTimestamp" ∉ df.cols)
    (hdd : "deliveryDate" ∈ df.cols) (hhe : "hourEnding" ∈ df.cols)
    (hpc1 : pc ≠ "hourEnding") (hpc2 : pc ≠ "deliveryHour")
    (hall : ∀ r ∈ df.rows, ∃ N,
      parseHourEnding (rowGet r "hourEnding") = some N)
    (hnd : ∀ r ∈ df.rows, rowHas r "deliveryHour" = false) :
    process_and_normalize_data (swapToDeliveryHour df) pc =
      process_and_normalize_data df pc := by
  by_cases hguard : df.rows = [] ∨ df.cols = []
  · have hguard2 :
        (swapToDeliveryHour df).rows = [] ∨ (swapToDeliveryHour df).cols = [] := by
      rcases hguard with h | h
      · exact .inl (by rw [swapToDeliveryHour]; simp [h])
      · exact .inr (by rw [swapToDeliveryHour]; simp [h])
    rw [process_and_normalize_data, process_and_normalize_result,
        if_pos hguard2, process_and_normalize_data,
        process_and_normalize_result, if_pos hguard]
  · have hguard2 :
        ¬((swapToDeliveryHour df).rows = [] ∨
          (swapToDeliveryHour df).cols = []) := by
      rintro (h | h)
      · rw [swapToDeliveryHour] at h
        exact hguard (.inl (List.map_eq_nil_iff.mp h))
      · rw [swapToDeliveryHour] at h
        exact hguard (.inr (List.map_eq_nil_iff.mp h))
    have hsced2 : "SCEDTimestamp" ∉ (swapToDeliveryHour df).cols := by
      rw [swapToDeliveryHour]
      intro h
      exact hsced ((mem_rename_iff df.cols (by decide) (by decide)).mp h)
    have hdd2 : "deliveryDate" ∈ (swapToDeliveryHour df).cols := by
      rw [swapToDeliveryHour]
      exact (mem_rename_iff df.cols (by decide) (by decide)).mpr hdd
    have hhe2 : ¬("deliveryDate" ∈ (swapToDeliveryHour df).cols ∧
        "hourEnding" ∈ (swapToDeliveryHour df).cols) := by
      rintro ⟨-, h⟩
      rw [swapToDeliveryHour] at h
      exact hourEnding_not_mem_rename df.cols h
    have hdh2 : "deliveryHour" ∈ (swapToDeliveryHour df).cols := by
      rw [swapToDeliveryHour]
      exact dh_mem_rename df.cols hhe
    obtain ⟨hsB, hoptB⟩ := optList_some_of_all hall
    have hallA : ∀ r2 ∈ (swapToDeliveryHour df).rows, ∃ N,
        astypeIntCell (rowGet r2 "deliveryHour") = some N := by
      intro r2 hr2
      rw [swapToDeliveryHour] at hr2
      rcases List.mem_map.mp hr2 with ⟨r, hr, rfl⟩
      obtain ⟨N, hN⟩ := hall r hr
      exact ⟨N, by rw [rowGet_swapRow_dh r N (hnd r hr) hN,
        astypeIntCell_intCast]⟩
    obtain ⟨hsA, hoptA⟩ := optList_some_of_all hallA
    set dfB := setCol
      (setCol df "hour" (fun r =>
        .num (((parseHourEnding (rowGet r "hourEnding")).getD 0 : ℤ) : ℚ)))
      "datetime" hourOffsetDatetime with hdfB
    set dfA := setCol
      (setCol (swapToDeliveryHour df) "hour" (fun r =>
        .num (((astypeIntCell (rowGet r "deliveryHour")).getD 0 : ℤ) : ℚ)))
      "datetime" hourOffsetDatetime with hdfA
    have hderB : deriveCase2 df = some dfB := by
      rw [deriveCase2, hoptB, hdfB]
    have hderA : deriveCase3 (swapToDeliveryHour df) = some dfA := by
      rw [deriveCase3, hoptA, hdfA]
    have hF2 : List.Forall₂ rowsAgree dfA.rows dfB.rows := by
      rw [hdfA, hdfB]
      show List.Forall₂ rowsAgree
        (List.map _ (List.map _ (List.map swapRow df.rows)))
        (List.map _ (List.map _ df.rows))
      rw [List.map_map, List.map_map, List.map_map]
      refine forall2_of_map ?_
      intro r hr
      obtain ⟨N, hN⟩ := hall r hr
      have hvA : (astypeIntCell (rowGet (swapRow r) "deliveryHour")).getD 0 =
          N := by
        rw [rowGet_swapRow_dh r N (hnd r hr) hN, astypeIntCell_intCast]
        rfl
      have hvB : (parseHourEnding (rowGet r "hourEnding")).getD 0 = N := by
        rw [hN]
        rfl
      simp only [Function.comp, hvA, hvB]
      have hAB : rowsAgree (rowSet (swapRow r) "hour" (.num ((N : ℤ) : ℚ)))
          (rowSet r "hour" (.num ((N : ℤ) : ℚ))) :=
        rowsAgree_rowSet _ _ (fun c h1 h2 => rowGet_swapRow_ne r h1 h2)
      rw [hourOffsetDatetime_congr hAB]
      exact rowsAgree_rowSet _ _ hAB
    have hpcmem : (pc ∈ dfA.cols) ↔ (pc ∈ dfB.cols) := by
      rw [hdfA, hdfB, mem_setCol_cols, mem_setCol_cols, mem_setCol_cols,
          mem_setCol_cols]
      rw [show (swapToDeliveryHour df).cols = df.cols.map (fun c0 =>
        if c0 = "hourEnding" then "deliveryHour" else c0) from rfl]
      rw [mem_rename_iff df.cols hpc1 hpc2]
    by_cases hpcA : pc ∈ dfA.cols
    · have hpcB : pc ∈ dfB.cols := hpcmem.mp hpcA
      have hcolsMem : ∀ c, c ≠ "hourEnding" → c ≠ "deliveryHour" →
          ((c ∈ dfA.cols) ↔ (c ∈ dfB.cols)) := by
        intro c h1 h2
        rw [hdfA, hdfB, mem_setCol_cols, mem_setCol_cols, mem_setCol_cols,
            mem_setCol_cols]
        rw [show (swapToDeliveryHour df).cols = df.cols.map (fun c0 =>
          if c0 = "hourEnding" then "deliveryHour" else c0) from rfl]
        rw [mem_rename_iff df.cols h1 h2]
      have hcoA : (coercePrices dfA pc).cols = dfA.cols :=
        setCol_cols_of_mem _ hpcA
      have hcoB : (coercePrices dfB pc).cols = dfB.cols :=
        setCol_cols_of_mem _ hpcB
      have hesEq : essentialCols (coercePrices dfA pc).cols pc =
          essentialCols (coercePrices dfB pc).cols pc := by
        rw [essentialCols, essentialCols, hcoA, hcoB]
        congr 1
        refine List.filter_congr ?_
        intro c hc
        have hc12 : c ≠ "hourEnding" ∧ c ≠ "deliveryHour" := by
          rw [locNames] at hc
          rcases List.mem_cons.mp hc with rfl | hc2
          · exact ⟨by decide, by decide⟩
          · rcases List.mem_cons.mp hc2 with rfl | hc3
            · exact ⟨by decide, by decide⟩
            · rcases List.mem_cons.mp hc3 with rfl | hc4
              · exact ⟨by decide, by decide⟩
              · cases hc4
        exact decide_eq_decide.mpr (hcolsMem c hc12.1 hc12.2)
      have hF3 : List.Forall₂ rowsAgree (coercePrices dfA pc).rows
          (coercePrices dfB pc).rows := by
        refine forall2_map_rel ?_ hF2
        intro a b hab
        have hv : rowGet a pc = rowGet b pc := hab pc hpc1 hpc2
        show rowsAgree
          (rowSet a pc (match toNumericCoerce (rowGet a pc) with
            | some q => Value.num q
            | none => Value.nan))
          (rowSet b pc (match toNumericCoerce (rowGet b pc) with
            | some q => Value.num q
            | none => Value.nan))
        rw [hv]
        exact rowsAgree_rowSet _ _ hab
      have hF4 : List.Forall₂ rowsAgree
          ((coercePrices dfA pc).rows.filter (keepRow pc))
          ((coercePrices dfB pc).rows.filter (keepRow pc)) :=
        forall2_filter (fun a b hab => keepRow_congr hpc1 hpc2 hab) hF3
      have hF5 : List.Forall₂ rowsAgree
          (sortK dtKey ((coercePrices dfA pc).rows.filter (keepRow pc)))
          (sortK dtKey ((coercePrices dfB pc).rows.filter (keepRow pc))) :=
        forall2_sortK dtKey (fun a b hab => dtKey_congr hab) hF4
      have hesSafe : ∀ c ∈ essentialCols (coercePrices dfB pc).cols pc,
          c ≠ "hourEnding" ∧ c ≠ "deliveryHour" := by
        intro c hc
        rw [essentialCols] at hc
        rcases List.mem_append.mp hc with hc1 | hc2
        · rcases List.mem_cons.mp hc1 with rfl | hc3
          · exact ⟨by decide, by decide⟩
          · rcases List.mem_cons.mp hc3 with rfl | hc4
            · exact ⟨hpc1, hpc2⟩
            · cases hc4
        · have hcl : c ∈ locNames := List.mem_of_mem_filter hc2
          rw [locNames] at hcl
          rcases List.mem_cons.mp hcl with rfl | hcl2
          · exact ⟨by decide, by decide⟩
          · rcases List.mem_cons.mp hcl2 with rfl | hcl3
            · exact ⟨by decide, by decide⟩
            · rcases List.mem_cons.mp hcl3 with rfl | hcl4
              · exact ⟨by decide, by decide⟩
              · cases hcl4
      have hfinEq : finishNormalize dfA pc = finishNormalize dfB pc := by
        rw [finishNormalize, finishNormalize, if_pos hpcA, if_pos hpcB,
            hesEq]
        refine congrArg some ?_
        refine congrArg (Frame.mk _) ?_
        exact forall2_map_eq
          (fun a b hab => selectRow_congr hesSafe hab) hF5
      rw [process_and_normalize_data,
          result_dh_branch (swapToDeliveryHour df) pc hguard2 hsced2 hhe2
            hdd2 hdh2,
          hderA, process_and_normalize_data,
          result_he_branch df pc hguard hsced hdd hhe, hderB]
      show (match (match finishNormalize dfA pc with
          | some f => NormResult.ok f
          | none => NormResult.failed) with
        | NormResult.ok f => f
        | _ => Frame.empty) =
        (match (match finishNormalize dfB pc with
          | some f => NormResult.ok f
          | none => NormResult.failed) with
        | NormResult.ok f => f
        | _ => Frame.empty)
      rw [hfinEq]
    · have hpcB : pc ∉ dfB.cols := fun h => hpcA (hpcmem.mpr h)
      have hfinA : finishNormalize dfA pc = none := by
        rw [finishNormalize, if_neg hpcA]
      have hfinB : finishNormalize dfB pc = none := by
        rw [finishNormalize, if_neg hpcB]
      rw [process_and_normalize_data,
          result_dh_branch (swapToDeliveryHour df) pc hguard2 hsced2 hhe2
            hdd2 hdh2,
          hderA, process_and_normalize_data,
          result_he_branch df pc hguard hsced hdd hhe, hderB]
      show (match (match finishNormalize dfA pc with
          | some f => NormResult.ok f
          | none => NormResult.failed) with
        | NormResult.ok f => f
        | _ => Frame.empty) =
        (match (match finishNormalize dfB pc with
          | some f => NormResult.ok f
          | none => NormResult.failed) with
        | NormResult.ok f => f
        | _ => Frame.empty)
      rw [hfinA, hfinB]

/-- Witness for C2 at the concrete two-row frame: re-encoding its
hour-ending strings as integer delivery hours leaves the normalized output
unchanged. -/
theorem int_hour_matches_witness :
    process_and_normalize_data (swapToDeliveryHour exMalformedPrice) "LMP" =
      process_and_normalize_data exMalformedPrice "LMP" :=
  int_hour_matches_string_hour exMalformedPrice "LMP"
    (by decide) (by decide) (by decide) (by decide) (by decide)
    (by
      intro r hr
      rcases List.mem_cons.mp hr with rfl | hr2
      · exact ⟨1, by decide⟩
      · rcases List.mem_cons.mp hr2 with rfl | hr3
        · exact ⟨2, by decide⟩
        · cases hr3)
    (by decide)
